import Mathlib

/-!
Shallow embedding of `evil_mount` (`src/main.rs`), a program that mirrors a
working directory into a backup directory.  Paths are modelled as lists of
components, the filesystem as an association list from file paths to contents
together with a set of created directories.  The functions below are direct
translations of `copy_to_dst`, the per-file dispatch closure inside
`copy_files`, the snapshot walk of `copy_files`, the clearing loop of `main`,
and the initialization (populate) loop of `main`.
-/

namespace EvilMount

abbrev Path := List String

abbrev Content := String

/-- `leads a b` holds iff `a` is a (not necessarily proper) component-wise
ancestor of `b`, i.e. `a` is a list-level initial segment of `b`.  Models
`Path::starts_with` on component lists. -/
def leads : Path → Path → Bool
  | [], _ => true
  | _ :: _, [] => false
  | a :: as, b :: bs => decide (a = b) && leads as bs

/-- `dropRoot root p` models `Path::strip_prefix`: `some rel` with
`p = root ++ rel` when `root` is an initial segment of `p`, `none` otherwise. -/
def dropRoot : Path → Path → Option Path
  | [], p => some p
  | _ :: _, [] => none
  | a :: as, b :: bs => if a = b then dropRoot as bs else none

/-- First-match lookup in an association list keyed by paths.  Models both
`HashMap::get` on the modification-time table and reading a file's contents. -/
def lookupA {α : Type} : List (Path × α) → Path → Option α
  | [], _ => none
  | (q, v) :: rest, p => if q = p then some v else lookupA rest p

/-- Replace-or-append insertion, modelling `HashMap::insert` (and an
overwriting file write). -/
def insertA {α : Type} : List (Path × α) → Path → α → List (Path × α)
  | [], p, v => [(p, v)]
  | (q, w) :: rest, p, v =>
    if q = p then (p, v) :: rest else (q, w) :: insertA rest p v

/-- The filesystem: regular files (path to contents) and the set of
directories known to exist. -/
structure FS where
  files : List (Path × Content)
  dirs : Path → Bool

/-- Contents of the regular file at `p`, `none` if there is no such file. -/
def getFile (fs : FS) (p : Path) : Option Content :=
  lookupA fs.files p

/-- Models `tokio::fs::create_dir_all`: the directory and all of its
ancestors come to exist. -/
def createDirAll (fs : FS) (d : Path) : FS :=
  { fs with dirs := fun q => leads q d || fs.dirs q }

/-- Translation of `copy_to_dst` (`src/main.rs:181-209`): strip the source
root `workDir` off `path`, join the remainder onto the destination root
`backupDir`, create the destination's parent directory chain, then copy the
bytes, overwriting any existing destination file.  The returned `Except` is
the function's `Result`; the returned `FS` is the filesystem after whatever
side effects happened before a failure. -/
def copy_to_dst (path workDir backupDir : Path) (fs : FS) : FS × Except String Unit :=
  match dropRoot workDir path with
  | none => (fs, Except.error "error stripping root")
  | some rel =>
    let dstPath := backupDir ++ rel
    let parentDir := dstPath.dropLast
    let fs1 := createDirAll fs parentDir
    match lookupA fs1.files path with
    | none => (fs1, Except.error "error copying")
    | some c => ({ fs1 with files := insertA fs1.files dstPath c }, Except.ok ())

/-- The modification-time table (`modify_times` in `copy_files`). -/
abbrev ModTimeTable := List (Path × Nat)

/-- Outcome of one per-file dispatch closure of `copy_files`: the table after
the closure, the filesystem after it, the closure's `Result`, and whether
`copy_to_dst` was invoked. -/
structure SyncResult where
  table : ModTimeTable
  fs : FS
  res : Except String Unit
  copied : Bool

/-- Translation of the per-file async closure inside `copy_files`
(`src/main.rs:131-162`): look up the path in the table; with a prior entry,
copy exactly when the snapshot time is strictly newer (leaving the table
alone); with no prior entry, first insert the current wall-clock time `now`
(not the file's own mtime `newModTime`), then copy. -/
def syncOne (table : ModTimeTable) (p : Path) (newModTime now : Nat)
    (workDir backupDir : Path) (fs : FS) : SyncResult :=
  match lookupA table p with
  | some oldModTime =>
    if newModTime > oldModTime then
      let r := copy_to_dst p workDir backupDir fs
      ⟨table, r.1, r.2, true⟩
    else
      ⟨table, fs, Except.ok (), false⟩
  | none =>
    let table1 := insertA table p now
    let r := copy_to_dst p workDir backupDir fs
    ⟨table1, r.1, r.2, true⟩

/-- One item yielded by the `WalkDir` iterator: either a directory entry
(with the result of `path().is_file()`) or a walk error. -/
inductive WalkEntry : Type
  | ok (p : Path) (isFile : Bool)
  | err (msg : String)
deriving DecidableEq

/-- The filter applied to the walk in `copy_files` (`src/main.rs:112-117`):
keep `Ok` entries whose path is a regular file, and drop `Err` entries. -/
def keepEntry : WalkEntry → Bool
  | WalkEntry.ok _ isFile => isFile
  | WalkEntry.err _ => false

/-- The body of the snapshot loop in `copy_files` (`src/main.rs:110-127`)
applied to the already-filtered entries: `file_info?` propagates a walk error
(unreachable after the filter), and `fs::metadata(..).unwrap()` aborts the
task when the metadata read fails, modelled as an error result.  `meta p`
is the mtime in whole seconds of the file at `p`, `none` when reading the
metadata fails. -/
def buildSnapshot (meta : Path → Option Nat) : List WalkEntry → Except String (List (Path × Nat))
  | [] => Except.ok []
  | WalkEntry.err msg :: _ => Except.error msg
  | WalkEntry.ok p _ :: rest =>
    match meta p with
    | none => Except.error "metadata unwrap"
    | some t => (buildSnapshot meta rest).map (fun snap => (p, t) :: snap)

/-- The snapshot phase of one tick of `copy_files`: filter the walk's items,
then read each survivor's mtime. -/
def takeSnapshot (meta : Path → Option Nat) (entries : List WalkEntry) :
    Except String (List (Path × Nat)) :=
  buildSnapshot meta (entries.filter keepEntry)

/-- Outcome of the dispatch phase of one tick: the table and filesystem
after the tick and, for each snapshot entry in order, its closure's
`Result` (collected by `join_all` and merely logged, `src/main.rs:168-176`)
together with whether that closure invoked `copy_to_dst`. -/
structure TickOut where
  table : ModTimeTable
  fs : FS
  results : List (Except String Unit × Bool)

/-- The dispatch phase of one tick of `copy_files`: run the per-file closure
for every snapshot entry (linearization of the concurrent `join_all`). -/
def runTick (table : ModTimeTable) (snap : List (Path × Nat)) (now : Nat)
    (workDir backupDir : Path) (fs : FS) : TickOut :=
  match snap with
  | [] => ⟨table, fs, []⟩
  | (p, t) :: rest =>
    let r := syncOne table p t now workDir backupDir fs
    let out := runTick r.table rest now workDir backupDir r.fs
    ⟨out.table, out.fs, (r.res, r.copied) :: out.results⟩

/-- One full tick of `copy_files` (`src/main.rs:102-177`): take the
snapshot — whose failure aborts the whole task — then dispatch the per-file
closures, whose individual failures are only collected in `results`. -/
def copy_files_tick (meta : Path → Option Nat) (entries : List WalkEntry)
    (table : ModTimeTable) (now : Nat) (workDir backupDir : Path) (fs : FS) :
    Except String TickOut :=
  match takeSnapshot meta entries with
  | Except.error e => Except.error e
  | Except.ok snap => Except.ok (runTick table snap now workDir backupDir fs)

/-- A finite trace of the infinite `loop` of `copy_files`: each tick is given
its walk items, metadata oracle and wall-clock second; a snapshot failure
ends the loop with that error, per-file copy errors never do. -/
def copy_files_loop (workDir backupDir : Path) :
    List ((Path → Option Nat) × List WalkEntry × Nat) → ModTimeTable → FS →
    Except String (ModTimeTable × FS)
  | [], table, fs => Except.ok (table, fs)
  | (meta, entries, now) :: rest, table, fs =>
    match copy_files_tick meta entries table now workDir backupDir fs with
    | Except.error e => Except.error e
    | Except.ok out => copy_files_loop workDir backupDir rest out.table out.fs

/-- What `path.is_dir()` / `path.is_file()` report for one direct entry of
`work_dir` during the clearing loop of `main`. -/
inductive EntryKind : Type
  | dir
  | file
  | other
deriving DecidableEq

/-- Models `tokio::fs::remove_dir_all`: every file at or below `d` is gone. -/
def removeUnder (fs : FS) (d : Path) : FS :=
  { fs with files := fs.files.filter (fun pc => !leads d pc.1) }

/-- Models `tokio::fs::remove_file`: the file at exactly `p` is gone. -/
def removeFileAt (fs : FS) (p : Path) : FS :=
  { fs with files := fs.files.filter (fun pc => decide (pc.1 ≠ p)) }

/-- Translation of the clearing loop of `main` (`src/main.rs:46-61`): for each
direct entry of `work_dir` (given by name and observed kind), recursively
remove it when it is a directory, remove it when it is a regular file, and
hit `todo!()` — no further progress, modelled as an error — otherwise. -/
def clear_loop (workDir : Path) (fs : FS) : List (String × EntryKind) → Except String FS
  | [] => Except.ok fs
  | (name, EntryKind.dir) :: rest => clear_loop workDir (removeUnder fs (workDir ++ [name])) rest
  | (name, EntryKind.file) :: rest => clear_loop workDir (removeFileAt fs (workDir ++ [name])) rest
  | (_, EntryKind.other) :: _ => Except.error "not really sure what to do here"

/-- The files the initialization walk of `main` visits: every regular file at
or below `root` (the `WalkDir::new(&backup_dir)` walk filtered by
`is_file()`), in the order the filesystem lists them. -/
def walkFiles (fs : FS) (root : Path) : List Path :=
  (fs.files.filter (fun pc => leads root pc.1)).map (fun pc => pc.1)

/-- Translation of the initialization loop of `main` (`src/main.rs:70-84`):
copy each walked backup file into `work_dir` with
`copy_to_dst(path, backup_dir, work_dir)`; any copy error is fatal (`?`). -/
def initPopulate (workDir backupDir : Path) (fs : FS) : List Path → Except String FS
  | [] => Except.ok fs
  | p :: rest =>
    let r := copy_to_dst p backupDir workDir fs
    match r.2 with
    | Except.error e => Except.error e
    | Except.ok _ => initPopulate workDir backupDir r.1 rest

/-- The initialization part of `main` (`src/main.rs:45-86`): clear `work_dir`
entry by entry, then walk `backup_dir` and copy every file into `work_dir`.
A clearing failure aborts before any copy happens. -/
def main_init (workDir backupDir : Path) (fs : FS) (entries : List (String × EntryKind)) :
    Except String FS :=
  match clear_loop workDir fs entries with
  | Except.error e => Except.error e
  | Except.ok fs1 => initPopulate workDir backupDir fs1 (walkFiles fs1 backupDir)

/-! ### Path lemmas -/

theorem leads_append (a r : Path) : leads a (a ++ r) = true := by
  induction a with
  | nil => rfl
  | cons x xs ih => simp [leads, ih]

theorem leads_refl (a : Path) : leads a a = true := by
  simpa using leads_append a []

theorem dropRoot_append (a r : Path) : dropRoot a (a ++ r) = some r := by
  induction a with
  | nil => rfl
  | cons x xs ih => simp [dropRoot, ih]

theorem dropRoot_eq_some {a b r : Path} (h : dropRoot a b = some r) : b = a ++ r := by
  induction a generalizing b with
  | nil => simpa [dropRoot] using h
  | cons x xs ih =>
    cases b with
    | nil => simp [dropRoot] at h
    | cons y ys =>
      by_cases hxy : x = y
      · subst hxy
        simp only [dropRoot, if_pos rfl] at h
        simp [ih h]
      · simp [dropRoot, hxy] at h

theorem dropRoot_of_leads {a b : Path} (h : leads a b = true) :
    ∃ r, dropRoot a b = some r ∧ b = a ++ r := by
  induction a generalizing b with
  | nil => exact ⟨b, rfl, rfl⟩
  | cons x xs ih =>
    cases b with
    | nil => simp [leads] at h
    | cons y ys =>
      simp only [leads, Bool.and_eq_true, decide_eq_true_eq] at h
      obtain ⟨r, hr, hb⟩ := ih h.2
      exact ⟨r, by simp [dropRoot, h.1, hr], by simp [h.1, hb]⟩

theorem leads_trans {a b c : Path} (h1 : leads a b = true) (h2 : leads b c = true) :
    leads a c = true := by
  obtain ⟨r1, _, hb⟩ := dropRoot_of_leads h1
  obtain ⟨r2, _, hc⟩ := dropRoot_of_leads h2
  subst hb
  subst hc
  rw [List.append_assoc]
  exact leads_append a (r1 ++ r2)

theorem leads_comparable {a b c : Path} (h1 : leads a c = true) (h2 : leads b c = true) :
    leads a b = true ∨ leads b a = true := by
  induction a generalizing b c with
  | nil => exact Or.inl rfl
  | cons x xs ih =>
    cases b with
    | nil => exact Or.inr rfl
    | cons y ys =>
      cases c with
      | nil => simp [leads] at h1
      | cons z zs =>
        simp only [leads, Bool.and_eq_true, decide_eq_true_eq] at h1 h2
        have hxy : x = y := h1.1.trans h2.1.symm
        rcases ih h1.2 h2.2 with h | h
        · exact Or.inl (by simp [leads, hxy, h])
        · exact Or.inr (by simp [leads, hxy.symm, h])

theorem leads_append_left {a b c : Path} (h : leads (a ++ b) c = true) :
    leads a c = true :=
  leads_trans (leads_append a b) h

/-! ### Association-list lemmas -/

theorem lookupA_insertA_self {α : Type} (l : List (Path × α)) (p : Path) (v : α) :
    lookupA (insertA l p v) p = some v := by
  induction l with
  | nil => simp [insertA, lookupA]
  | cons qw rest ih =>
    obtain ⟨q, w⟩ := qw
    by_cases h : q = p
    · simp [insertA, h, lookupA]
    · simp [insertA, h, lookupA, ih]

theorem lookupA_insertA_ne {α : Type} (l : List (Path × α)) {p q : Path} (v : α)
    (h : q ≠ p) : lookupA (insertA l p v) q = lookupA l q := by
  induction l with
  | nil =>
    have hpq : p ≠ q := fun hh => h hh.symm
    simp [insertA, lookupA, hpq]
  | cons qw rest ih =>
    obtain ⟨q', w⟩ := qw
    by_cases h' : q' = p
    · subst h'
      have hq'q : q' ≠ q := fun hh => h hh.symm
      simp [insertA, lookupA, hq'q]
    · simp [insertA, h', lookupA, ih]

theorem lookupA_filter_keep {α : Type} (f : Path × α → Bool) (l : List (Path × α))
    (q : Path) (hf : ∀ v, f (q, v) = true) :
    lookupA (l.filter f) q = lookupA l q := by
  induction l with
  | nil => rfl
  | cons pw rest ih =>
    obtain ⟨p, w⟩ := pw
    by_cases hpq : p = q
    · subst hpq
      simp [List.filter_cons, hf w, lookupA]
    · cases hfw : f (p, w) <;> simp [List.filter_cons, hfw, lookupA, hpq, ih]

theorem lookupA_filter_drop {α : Type} (f : Path × α → Bool) (l : List (Path × α))
    (q : Path) (hf : ∀ v, f (q, v) = false) :
    lookupA (l.filter f) q = none := by
  induction l with
  | nil => rfl
  | cons pw rest ih =>
    obtain ⟨p, w⟩ := pw
    by_cases hpq : p = q
    · subst hpq
      simp [List.filter_cons, hf w, ih]
    · cases hfw : f (p, w) <;> simp [List.filter_cons, hfw, lookupA, hpq, ih]

theorem lookupA_filter_none {α : Type} (f : Path × α → Bool) (l : List (Path × α))
    (q : Path) (h : lookupA l q = none) : lookupA (l.filter f) q = none := by
  induction l with
  | nil => rfl
  | cons pw rest ih =>
    obtain ⟨p, w⟩ := pw
    by_cases hpq : p = q
    · simp [lookupA, hpq] at h
    · simp only [lookupA, if_neg hpq] at h
      cases hfw : f (p, w) <;> simp [List.filter_cons, hfw, lookupA, hpq, ih h]

theorem lookupA_isSome_of_mem {α : Type} {l : List (Path × α)} {p : Path} {c : α}
    (h : (p, c) ∈ l) : (lookupA l p).isSome = true := by
  induction l with
  | nil => simp at h
  | cons qw rest ih =>
    obtain ⟨q, w⟩ := qw
    by_cases hqp : q = p
    · simp [lookupA, hqp]
    · rcases List.mem_cons.mp h with h' | h'
      · exact absurd (congrArg Prod.fst h').symm hqp
      · simp [lookupA, hqp, ih h']

theorem mem_keys_of_lookupA {α : Type} {l : List (Path × α)} {p : Path} {c : α}
    (h : lookupA l p = some c) : (p, c) ∈ l := by
  induction l with
  | nil => simp [lookupA] at h
  | cons qw rest ih =>
    obtain ⟨q, w⟩ := qw
    by_cases hqp : q = p
    · subst hqp
      have h' : w = c := by simpa [lookupA] using h
      subst h'
      exact List.mem_cons_self _ _
    · simp only [lookupA, if_neg hqp] at h
      exact List.mem_cons_of_mem _ (ih h)

/-! ### copy_to_dst lemmas -/

theorem copy_to_dst_eq_noroot {p workDir backupDir : Path} {fs : FS}
    (hrel : dropRoot workDir p = none) :
    copy_to_dst p workDir backupDir fs = (fs, Except.error "error stripping root") := by
  simp [copy_to_dst, hrel]

theorem copy_to_dst_eq_nosrc {p workDir backupDir rel : Path} {fs : FS}
    (hrel : dropRoot workDir p = some rel) (hc : getFile fs p = none) :
    copy_to_dst p workDir backupDir fs =
      (createDirAll fs ((backupDir ++ rel).dropLast), Except.error "error copying") := by
  have hc' : lookupA fs.files p = none := hc
  simp [copy_to_dst, hrel, createDirAll, hc']

theorem copy_to_dst_eq_ok {p workDir backupDir rel : Path} {fs : FS} {c : Content}
    (hrel : dropRoot workDir p = some rel) (hc : getFile fs p = some c) :
    copy_to_dst p workDir backupDir fs =
      ({ files := insertA fs.files (backupDir ++ rel) c,
         dirs := fun q => leads q ((backupDir ++ rel).dropLast) || fs.dirs q },
       Except.ok ()) := by
  have hc' : lookupA fs.files p = some c := hc
  simp [copy_to_dst, hrel, hc', createDirAll]

theorem copy_to_dst_spec {p workDir backupDir rel : Path} {fs : FS} {c : Content}
    (hrel : dropRoot workDir p = some rel) (hc : getFile fs p = some c) :
    (copy_to_dst p workDir backupDir fs).2 = Except.ok () ∧
    getFile (copy_to_dst p workDir backupDir fs).1 (backupDir ++ rel) = some c ∧
    (∀ q, q ≠ backupDir ++ rel →
      getFile (copy_to_dst p workDir backupDir fs).1 q = getFile fs q) ∧
    (∀ d, (copy_to_dst p workDir backupDir fs).1.dirs d =
      (leads d ((backupDir ++ rel).dropLast) || fs.dirs d)) := by
  rw [copy_to_dst_eq_ok hrel hc]
  refine ⟨rfl, lookupA_insertA_self _ _ _, ?_, fun _ => rfl⟩
  intro q hq
  exact lookupA_insertA_ne _ _ hq

theorem copy_to_dst_frame {p workDir backupDir : Path} {fs : FS} (q : Path)
    (hq : leads backupDir q = false) :
    getFile (copy_to_dst p workDir backupDir fs).1 q = getFile fs q := by
  cases hrel : dropRoot workDir p with
  | none => rw [copy_to_dst_eq_noroot hrel]
  | some rel =>
    have hq' : q ≠ backupDir ++ rel := by
      intro hcontra
      rw [hcontra, leads_append] at hq
      cases hq
    cases hc : getFile fs p with
    | none => rw [copy_to_dst_eq_nosrc hrel hc]; rfl
    | some c =>
      rw [copy_to_dst_eq_ok hrel hc]
      exact lookupA_insertA_ne _ _ hq'

theorem copy_to_dst_presence {p workDir backupDir : Path} {fs : FS} (q : Path)
    (hq : (getFile fs q).isSome = true) :
    (getFile (copy_to_dst p workDir backupDir fs).1 q).isSome = true := by
  cases hrel : dropRoot workDir p with
  | none => rw [copy_to_dst_eq_noroot hrel]; exact hq
  | some rel =>
    cases hc : getFile fs p with
    | none => rw [copy_to_dst_eq_nosrc hrel hc]; exact hq
    | some c =>
      rw [copy_to_dst_eq_ok hrel hc]
      by_cases hdst : q = backupDir ++ rel
      · subst hdst
        simp [getFile, lookupA_insertA_self]
      · show (lookupA (insertA fs.files (backupDir ++ rel) c) q).isSome = true
        rw [lookupA_insertA_ne _ _ hdst]
        exact hq

theorem copy_to_dst_res_congr {p workDir backupDir : Path} {f1 f2 : FS}
    (h : getFile f1 p = getFile f2 p) :
    (copy_to_dst p workDir backupDir f1).2 = (copy_to_dst p workDir backupDir f2).2 := by
  cases hrel : dropRoot workDir p with
  | none => rw [copy_to_dst_eq_noroot hrel, copy_to_dst_eq_noroot hrel]
  | some rel =>
    cases hc : getFile f2 p with
    | none =>
      rw [copy_to_dst_eq_nosrc hrel (h.trans hc), copy_to_dst_eq_nosrc hrel hc]
    | some c =>
      rw [copy_to_dst_eq_ok hrel (h.trans hc), copy_to_dst_eq_ok hrel hc]

/-! ### syncOne and runTick lemmas -/

theorem syncOne_eq_prior {table : ModTimeTable} {p : Path} {newModTime now : Nat}
    {workDir backupDir : Path} {fs : FS} {oldModTime : Nat}
    (h : lookupA table p = some oldModTime) :
    syncOne table p newModTime now workDir backupDir fs =
      if newModTime > oldModTime then
        ⟨table, (copy_to_dst p workDir backupDir fs).1,
          (copy_to_dst p workDir backupDir fs).2, true⟩
      else ⟨table, fs, Except.ok (), false⟩ := by
  simp [syncOne, h]

theorem syncOne_eq_new {table : ModTimeTable} {p : Path} {newModTime now : Nat}
    {workDir backupDir : Path} {fs : FS}
    (h : lookupA table p = none) :
    syncOne table p newModTime now workDir backupDir fs =
      ⟨insertA table p now, (copy_to_dst p workDir backupDir fs).1,
        (copy_to_dst p workDir backupDir fs).2, true⟩ := by
  simp [syncOne, h]

theorem syncOne_table_mono {table : ModTimeTable} {p : Path} {t now : Nat}
    {workDir backupDir : Path} {fs : FS} {q : Path} {v : Nat}
    (h : lookupA table q = some v) :
    lookupA (syncOne table p t now workDir backupDir fs).table q = some v := by
  cases hp : lookupA table p with
  | some old =>
    rw [syncOne_eq_prior hp]
    split <;> exact h
  | none =>
    rw [syncOne_eq_new hp]
    have hqp : q ≠ p := by
      intro hh
      rw [hh, hp] at h
      cases h
    show lookupA (insertA table p now) q = some v
    rw [lookupA_insertA_ne _ _ hqp]
    exact h

theorem runTick_table_mono {snap : List (Path × Nat)} {table : ModTimeTable} {now : Nat}
    {workDir backupDir : Path} {fs : FS} {q : Path} {v : Nat}
    (h : lookupA table q = some v) :
    lookupA (runTick table snap now workDir backupDir fs).table q = some v := by
  induction snap generalizing table fs with
  | nil => exact h
  | cons pt rest ih =>
    obtain ⟨p, t⟩ := pt
    exact ih (syncOne_table_mono h)

/-- C1: for a snapshot path that already has a table entry, the per-file
dispatch copies work_dir → backup_dir exactly when the snapshot mtime is
strictly greater than the stored one; in both cases the table — both locally
and after the whole tick — keeps the old entry for that path unchanged. -/
theorem prior_entry_copies_iff_newer (table : ModTimeTable) (p : Path)
    (newModTime now : Nat) (workDir backupDir : Path) (fs : FS)
    (snap : List (Path × Nat)) (oldModTime : Nat)
    (h : lookupA table p = some oldModTime) :
    ((syncOne table p newModTime now workDir backupDir fs).copied = true ↔
      oldModTime < newModTime) ∧
    (syncOne table p newModTime now workDir backupDir fs).table = table ∧
    (oldModTime < newModTime →
      (syncOne table p newModTime now workDir backupDir fs).fs =
          (copy_to_dst p workDir backupDir fs).1 ∧
      (syncOne table p newModTime now workDir backupDir fs).res =
          (copy_to_dst p workDir backupDir fs).2) ∧
    (¬ oldModTime < newModTime →
      (syncOne table p newModTime now workDir backupDir fs).fs = fs ∧
      (syncOne table p newModTime now workDir backupDir fs).res = Except.ok ()) ∧
    lookupA (runTick table snap now workDir backupDir fs).table p = some oldModTime := by
  refine ⟨?_, ?_, ?_, ?_, runTick_table_mono h⟩ <;> rw [syncOne_eq_prior h]
  · by_cases hlt : newModTime > oldModTime <;> simp [hlt]
  · by_cases hlt : newModTime > oldModTime <;> simp [hlt]
  · intro hlt
    simp [hlt]
  · intro hlt
    simp [hlt]

/-- Witness for C1 at a concrete input, in both the newer and the
not-newer case. -/
theorem prior_entry_copies_iff_newer_w :
    (lookupA [(["w", "a"], 5)] ["w", "a"] = some 5 ∧
      (((syncOne [(["w", "a"], 5)] ["w", "a"] 6 100 ["w"] ["b"] ⟨[], fun _ => false⟩).copied =
          true ↔ 5 < 6) ∧
        (syncOne [(["w", "a"], 5)] ["w", "a"] 6 100 ["w"] ["b"]
            ⟨[], fun _ => false⟩).table = [(["w", "a"], 5)] ∧
        (5 < 6 →
          (syncOne [(["w", "a"], 5)] ["w", "a"] 6 100 ["w"] ["b"] ⟨[], fun _ => false⟩).fs =
              (copy_to_dst ["w", "a"] ["w"] ["b"] ⟨[], fun _ => false⟩).1 ∧
          (syncOne [(["w", "a"], 5)] ["w", "a"] 6 100 ["w"] ["b"] ⟨[], fun _ => false⟩).res =
              (copy_to_dst ["w", "a"] ["w"] ["b"] ⟨[], fun _ => false⟩).2) ∧
        (¬ 5 < 6 →
          (syncOne [(["w", "a"], 5)] ["w", "a"] 6 100 ["w"] ["b"] ⟨[], fun _ => false⟩).fs =
              ⟨[], fun _ => false⟩ ∧
          (syncOne [(["w", "a"], 5)] ["w", "a"] 6 100 ["w"] ["b"]
              ⟨[], fun _ => false⟩).res = Except.ok ()) ∧
        lookupA (runTick [(["w", "a"], 5)] [(["w", "a"], 6)] 100 ["w"] ["b"]
            ⟨[], fun _ => false⟩).table ["w", "a"] = some 5)) ∧
    (lookupA [(["w", "a"], 5)] ["w", "a"] = some 5 ∧
      ((syncOne [(["w", "a"], 5)] ["w", "a"] 5 100 ["w"] ["b"] ⟨[], fun _ => false⟩).copied =
          true ↔ 5 < 5)) :=
  ⟨⟨rfl, prior_entry_copies_iff_newer [(["w", "a"], 5)] ["w", "a"] 6 100 ["w"] ["b"]
      ⟨[], fun _ => false⟩ [(["w", "a"], 6)] 5 rfl⟩,
   ⟨rfl, (prior_entry_copies_iff_newer [(["w", "a"], 5)] ["w", "a"] 5 100 ["w"] ["b"]
      ⟨[], fun _ => false⟩ [] 5 rfl).1⟩⟩

/-- C3: for a snapshot path with no prior table entry, the dispatch inserts
the current wall-clock second `now` (not the file's own mtime `newModTime`)
into the table, and performs the copy work_dir → backup_dir. -/
theorem new_entry_inserts_now_then_copies (table : ModTimeTable) (p : Path)
    (newModTime now : Nat) (workDir backupDir : Path) (fs : FS)
    (h : lookupA table p = none) :
    (syncOne table p newModTime now workDir backupDir fs).table = insertA table p now ∧
    lookupA (syncOne table p newModTime now workDir backupDir fs).table p = some now ∧
    (syncOne table p newModTime now workDir backupDir fs).copied = true ∧
    (syncOne table p newModTime now workDir backupDir fs).fs =
        (copy_to_dst p workDir backupDir fs).1 ∧
    (syncOne table p newModTime now workDir backupDir fs).res =
        (copy_to_dst p workDir backupDir fs).2 := by
  rw [syncOne_eq_new h]
  exact ⟨rfl, lookupA_insertA_self _ _ _, rfl, rfl, rfl⟩

/-- Witness for C3 at a concrete input: mtime 7, wall clock 100; the table
records 100. -/
theorem new_entry_inserts_now_then_copies_w :
    lookupA ([] : ModTimeTable) ["w", "a"] = none ∧
    ((syncOne [] ["w", "a"] 7 100 ["w"] ["b"]
        ⟨[(["w", "a"], "hi")], fun _ => false⟩).table = insertA [] ["w", "a"] 100 ∧
      lookupA (syncOne [] ["w", "a"] 7 100 ["w"] ["b"]
          ⟨[(["w", "a"], "hi")], fun _ => false⟩).table ["w", "a"] = some 100 ∧
      (syncOne [] ["w", "a"] 7 100 ["w"] ["b"]
          ⟨[(["w", "a"], "hi")], fun _ => false⟩).copied = true ∧
      (syncOne [] ["w", "a"] 7 100 ["w"] ["b"]
          ⟨[(["w", "a"], "hi")], fun _ => false⟩).fs =
        (copy_to_dst ["w", "a"] ["w"] ["b"] ⟨[(["w", "a"], "hi")], fun _ => false⟩).1 ∧
      (syncOne [] ["w", "a"] 7 100 ["w"] ["b"]
          ⟨[(["w", "a"], "hi")], fun _ => false⟩).res =
        (copy_to_dst ["w", "a"] ["w"] ["b"] ⟨[(["w", "a"], "hi")], fun _ => false⟩).2) :=
  ⟨rfl, new_entry_inserts_now_then_copies [] ["w", "a"] 7 100 ["w"] ["b"]
    ⟨[(["w", "a"], "hi")], fun _ => false⟩ rfl⟩

/-- C9: in the newly-added branch the table insertion happens before the copy
is attempted, so even when the copy fails the inserted entry remains. -/
theorem new_entry_survives_copy_failure (table : ModTimeTable) (p : Path)
    (newModTime now : Nat) (workDir backupDir : Path) (fs : FS) (e : String)
    (h : lookupA table p = none)
    (_hfail : (syncOne table p newModTime now workDir backupDir fs).res = Except.error e) :
    lookupA (syncOne table p newModTime now workDir backupDir fs).table p = some now := by
  rw [syncOne_eq_new h]
  exact lookupA_insertA_self _ _ _

/-- Witness for C9: the path `x` is outside `work_dir`, so the copy fails
with a root-stripping error, yet the table keeps the inserted entry. -/
theorem new_entry_survives_copy_failure_w :
    lookupA ([] : ModTimeTable) ["x"] = none ∧
    (syncOne [] ["x"] 7 100 ["w"] ["b"] ⟨[], fun _ => false⟩).res =
        Except.error "error stripping root" ∧
    lookupA (syncOne [] ["x"] 7 100 ["w"] ["b"] ⟨[], fun _ => false⟩).table ["x"] =
        some 100 :=
  ⟨rfl, rfl, new_entry_survives_copy_failure [] ["x"] 7 100 ["w"] ["b"]
    ⟨[], fun _ => false⟩ "error stripping root" rfl rfl⟩

/-- C4: for a source file under the source root, `copy_to_dst` succeeds and
writes the file's bytes to exactly the destination root joined with the
remainder of the path after the source root, leaves every other file alone
(in particular it overwrites whatever was at the destination), and creates
the destination path's parent directory together with all its ancestors. -/
theorem copy_to_dst_path_fidelity (p workDir backupDir rel : Path) (fs : FS) (c : Content)
    (hrel : dropRoot workDir p = some rel) (hc : getFile fs p = some c) :
    (copy_to_dst p workDir backupDir fs).2 = Except.ok () ∧
    getFile (copy_to_dst p workDir backupDir fs).1 (backupDir ++ rel) = some c ∧
    (∀ q, q ≠ backupDir ++ rel →
      getFile (copy_to_dst p workDir backupDir fs).1 q = getFile fs q) ∧
    (∀ d, leads d ((backupDir ++ rel).dropLast) = true →
      (copy_to_dst p workDir backupDir fs).1.dirs d = true) := by
  obtain ⟨h1, h2, h3, h4⟩ := copy_to_dst_spec hrel hc
  refine ⟨h1, h2, h3, fun d hd => ?_⟩
  rw [h4 d, hd]
  rfl

/-- Witness for C4: `work_dir/sub/dir/file.txt` lands at exactly
`backup_dir/sub/dir/file.txt`, overwriting the stale copy there, and the
directory chain up to `backup_dir/sub/dir` is created. -/
theorem copy_to_dst_path_fidelity_w :
    dropRoot ["work"] ["work", "sub", "dir", "file.txt"] = some ["sub", "dir", "file.txt"] ∧
    getFile ⟨[(["work", "sub", "dir", "file.txt"], "hello"),
              (["backup", "sub", "dir", "file.txt"], "stale")], fun _ => false⟩
        ["work", "sub", "dir", "file.txt"] = some "hello" ∧
    ((copy_to_dst ["work", "sub", "dir", "file.txt"] ["work"] ["backup"]
        ⟨[(["work", "sub", "dir", "file.txt"], "hello"),
          (["backup", "sub", "dir", "file.txt"], "stale")], fun _ => false⟩).2 =
      Except.ok () ∧
    getFile (copy_to_dst ["work", "sub", "dir", "file.txt"] ["work"] ["backup"]
        ⟨[(["work", "sub", "dir", "file.txt"], "hello"),
          (["backup", "sub", "dir", "file.txt"], "stale")], fun _ => false⟩).1
        (["backup"] ++ ["sub", "dir", "file.txt"]) = some "hello" ∧
    (∀ q, q ≠ ["backup"] ++ ["sub", "dir", "file.txt"] →
      getFile (copy_to_dst ["work", "sub", "dir", "file.txt"] ["work"] ["backup"]
          ⟨[(["work", "sub", "dir", "file.txt"], "hello"),
            (["backup", "sub", "dir", "file.txt"], "stale")], fun _ => false⟩).1 q =
        getFile ⟨[(["work", "sub", "dir", "file.txt"], "hello"),
            (["backup", "sub", "dir", "file.txt"], "stale")], fun _ => false⟩ q) ∧
    (∀ d, leads d ((["backup"] ++ ["sub", "dir", "file.txt"]).dropLast) = true →
      (copy_to_dst ["work", "sub", "dir", "file.txt"] ["work"] ["backup"]
          ⟨[(["work", "sub", "dir", "file.txt"], "hello"),
            (["backup", "sub", "dir", "file.txt"], "stale")], fun _ => false⟩).1.dirs d =
        true)) :=
  ⟨rfl, rfl, copy_to_dst_path_fidelity ["work", "sub", "dir", "file.txt"] ["work"] ["backup"]
    ["sub", "dir", "file.txt"]
    ⟨[(["work", "sub", "dir", "file.txt"], "hello"),
      (["backup", "sub", "dir", "file.txt"], "stale")], fun _ => false⟩ "hello" rfl rfl⟩

/-! ### Snapshot error semantics -/

theorem buildSnapshot_err_of_missing_meta {meta : Path → Option Nat} {l : List WalkEntry}
    {p : Path} {b : Bool}
    (hmem : WalkEntry.ok p b ∈ l) (hmeta : meta p = none) :
    ∃ e, buildSnapshot meta l = Except.error e := by
  induction l with
  | nil => simp at hmem
  | cons w rest ih =>
    cases w with
    | err msg => exact ⟨msg, rfl⟩
    | ok q bf =>
      cases hq : meta q with
      | none => exact ⟨"metadata unwrap", by simp [buildSnapshot, hq]⟩
      | some t =>
        have hmem' : WalkEntry.ok p b ∈ rest := by
          rcases List.mem_cons.mp hmem with h | h
          · cases h
            rw [hq] at hmeta
            cases hmeta
          · exact h
        obtain ⟨e, he⟩ := ih hmem'
        refine ⟨e, ?_⟩
        simp only [buildSnapshot, hq, he]
        rfl

theorem takeSnapshot_err_of_missing_meta {meta : Path → Option Nat}
    {entries : List WalkEntry} {p : Path}
    (hmem : WalkEntry.ok p true ∈ entries) (hmeta : meta p = none) :
    ∃ e, takeSnapshot meta entries = Except.error e :=
  buildSnapshot_err_of_missing_meta
    (List.mem_filter.mpr ⟨hmem, by simp [keepEntry]⟩) hmeta

/-- Counterexample to C2: a directory-walk error among the tick's entries
does not make the snapshot fail; the erroring entry is silently filtered out
and the snapshot succeeds with the remaining file. -/
theorem walk_error_silently_skipped_cex :
    takeSnapshot (fun q => if q = ["w", "a"] then some 3 else none)
      [WalkEntry.err "permission denied", WalkEntry.ok ["w", "a"] true] =
      Except.ok [(["w", "a"], 3)] := rfl

/-- C2 as amended: a directory-walk error is silently dropped by the
snapshot's filter (removing it from the walk items changes nothing), whereas
a metadata read failure on a surviving regular-file entry makes the whole
snapshot fail and that failure propagates fatally out of the tick and out of
the sync loop. -/
theorem snapshot_error_semantics (meta : Path → Option Nat)
    (l1 l2 entries : List WalkEntry) (msg : String) (p : Path)
    (table : ModTimeTable) (now : Nat) (workDir backupDir : Path) (fs : FS) :
    takeSnapshot meta (l1 ++ WalkEntry.err msg :: l2) = takeSnapshot meta (l1 ++ l2) ∧
    (WalkEntry.ok p true ∈ entries → meta p = none →
      ∃ e, takeSnapshot meta entries = Except.error e ∧
        copy_files_tick meta entries table now workDir backupDir fs = Except.error e ∧
        copy_files_loop workDir backupDir [(meta, entries, now)] table fs =
          Except.error e) := by
  constructor
  · simp [takeSnapshot, List.filter_append, List.filter_cons, keepEntry]
  · intro hmem hmeta
    obtain ⟨e, he⟩ := takeSnapshot_err_of_missing_meta hmem hmeta
    refine ⟨e, he, ?_, ?_⟩
    · simp [copy_files_tick, he]
    · simp [copy_files_loop, copy_files_tick, he]

/-- Witness for the amended C2: a metadata oracle that fails on the one
regular file aborts the snapshot, the tick and the loop. -/
theorem snapshot_error_semantics_w :
    WalkEntry.ok ["w", "a"] true ∈ [WalkEntry.ok ["w", "a"] true] ∧
    (fun (_ : Path) => (none : Option Nat)) ["w", "a"] = none ∧
    takeSnapshot (fun _ => none) ([] ++ WalkEntry.err "denied" :: []) =
        takeSnapshot (fun _ => none) ([] ++ []) ∧
    (∃ e, takeSnapshot (fun _ => none) [WalkEntry.ok ["w", "a"] true] = Except.error e ∧
      copy_files_tick (fun _ => none) [WalkEntry.ok ["w", "a"] true] [] 100 ["w"] ["b"]
          ⟨[], fun _ => false⟩ = Except.error e ∧
      copy_files_loop ["w"] ["b"] [(fun _ => none, [WalkEntry.ok ["w", "a"] true], 100)] []
          ⟨[], fun _ => false⟩ = Except.error e) :=
  ⟨List.mem_singleton.mpr rfl, rfl,
    (snapshot_error_semantics (fun _ => none) [] [] [WalkEntry.ok ["w", "a"] true] "denied"
      ["w", "a"] [] 100 ["w"] ["b"] ⟨[], fun _ => false⟩).1,
    (snapshot_error_semantics (fun _ => none) [] [] [WalkEntry.ok ["w", "a"] true] "denied"
      ["w", "a"] [] 100 ["w"] ["b"] ⟨[], fun _ => false⟩).2
      (List.mem_singleton.mpr rfl) rfl⟩

/-! ### Tick isolation lemmas -/

theorem syncOne_congr {t1 t2 : ModTimeTable} {f1 f2 : FS} {p : Path} {a b : Nat}
    {workDir backupDir : Path}
    (ht : lookupA t1 p = lookupA t2 p) (hf : getFile f1 p = getFile f2 p) :
    (syncOne t1 p a b workDir backupDir f1).res =
        (syncOne t2 p a b workDir backupDir f2).res ∧
    (syncOne t1 p a b workDir backupDir f1).copied =
        (syncOne t2 p a b workDir backupDir f2).copied := by
  cases h2 : lookupA t2 p with
  | some old =>
    rw [syncOne_eq_prior (ht.trans h2), syncOne_eq_prior h2]
    by_cases hlt : a > old <;> simp [hlt, copy_to_dst_res_congr hf]
  | none =>
    rw [syncOne_eq_new (ht.trans h2), syncOne_eq_new h2]
    simp [copy_to_dst_res_congr hf]

theorem syncOne_fs_frame {table : ModTimeTable} {p : Path} {t now : Nat}
    {workDir backupDir : Path} {fs : FS} (q : Path)
    (hq : leads backupDir q = false) :
    getFile (syncOne table p t now workDir backupDir fs).fs q = getFile fs q := by
  cases h : lookupA table p with
  | some old =>
    rw [syncOne_eq_prior h]
    by_cases hlt : t > old <;> simp [hlt, copy_to_dst_frame q hq]
  | none =>
    rw [syncOne_eq_new h]
    exact copy_to_dst_frame q hq

theorem syncOne_table_frame {table : ModTimeTable} {p : Path} {t now : Nat}
    {workDir backupDir : Path} {fs : FS} (q : Path) (hqp : q ≠ p) :
    lookupA (syncOne table p t now workDir backupDir fs).table q = lookupA table q := by
  cases h : lookupA table p with
  | some old =>
    rw [syncOne_eq_prior h]
    split <;> rfl
  | none =>
    rw [syncOne_eq_new h]
    exact lookupA_insertA_ne _ _ hqp

theorem runTick_results_length (table : ModTimeTable) (snap : List (Path × Nat))
    (now : Nat) (workDir backupDir : Path) (fs : FS) :
    (runTick table snap now workDir backupDir fs).results.length = snap.length := by
  induction snap generalizing table fs with
  | nil => rfl
  | cons pt rest ih =>
    obtain ⟨p, t⟩ := pt
    simp [runTick, ih]

theorem runTick_fresh {snap : List (Path × Nat)} {table : ModTimeTable} {now : Nat}
    {workDir backupDir : Path} {fs : FS}
    (hnone : ∀ pt ∈ snap, lookupA table pt.1 = none)
    (hnodup : (snap.map Prod.fst).Nodup) :
    (∀ rb ∈ (runTick table snap now workDir backupDir fs).results, rb.2 = true) ∧
    (∀ pt ∈ snap, lookupA (runTick table snap now workDir backupDir fs).table pt.1 =
      some now) := by
  induction snap generalizing table fs with
  | nil => exact ⟨fun rb h => by simp [runTick] at h, fun pt h => by simp at h⟩
  | cons pt0 rest ih =>
    obtain ⟨p, t⟩ := pt0
    have hp : lookupA table p = none := hnone (p, t) (List.mem_cons_self _ _)
    have hpmem : p ∉ rest.map Prod.fst := by
      have := hnodup
      simp only [List.map_cons, List.nodup_cons] at this
      exact this.1
    have hnone' : ∀ qt ∈ rest, lookupA (insertA table p now) qt.1 = none := by
      intro qt hqt
      have hne : qt.1 ≠ p := by
        intro hh
        exact hpmem (hh ▸ List.mem_map_of_mem Prod.fst hqt)
      rw [lookupA_insertA_ne _ _ hne]
      exact hnone qt (List.mem_cons_of_mem _ hqt)
    have hnodup' : (rest.map Prod.fst).Nodup := by
      simp only [List.map_cons, List.nodup_cons] at hnodup
      exact hnodup.2
    have hr := @syncOne_eq_new table p t now workDir backupDir fs hp
    obtain ⟨ihres, ihtab⟩ := ih hnone' hnodup'
    constructor
    · intro rb hrb
      simp only [runTick, hr] at hrb
      rcases List.mem_cons.mp hrb with h | h
      · rw [h]
      · exact ihres rb h
    · intro qt hqt
      rcases List.mem_cons.mp hqt with h | h
      · subst h
        simp only [runTick, hr]
        exact runTick_table_mono (lookupA_insertA_self _ _ _)
      · simp only [runTick, hr]
        exact ihtab qt h

theorem runTick_results_isolated {snap : List (Path × Nat)} {table table' : ModTimeTable}
    {now : Nat} {workDir backupDir : Path} {fs fs' : FS}
    (hdisj : leads workDir backupDir = false ∧ leads backupDir workDir = false)
    (hunder : ∀ pt ∈ snap, leads workDir pt.1 = true)
    (hnodup : (snap.map Prod.fst).Nodup)
    (hagree : ∀ pt ∈ snap, lookupA table' pt.1 = lookupA table pt.1 ∧
      getFile fs' pt.1 = getFile fs pt.1) :
    (runTick table' snap now workDir backupDir fs').results =
      snap.map (fun pt => ((syncOne table pt.1 pt.2 now workDir backupDir fs).res,
        (syncOne table pt.1 pt.2 now workDir backupDir fs).copied)) := by
  induction snap generalizing table' fs' with
  | nil => rfl
  | cons pt0 rest ih =>
    obtain ⟨p, t⟩ := pt0
    have hagree0 := hagree (p, t) (List.mem_cons_self _ _)
    have hhead := @syncOne_congr table' table fs' fs p t now workDir backupDir
      hagree0.1 hagree0.2
    have hpmem : p ∉ rest.map Prod.fst := by
      simp only [List.map_cons, List.nodup_cons] at hnodup
      exact hnodup.1
    have hnodup' : (rest.map Prod.fst).Nodup := by
      simp only [List.map_cons, List.nodup_cons] at hnodup
      exact hnodup.2
    have hagree' : ∀ qt ∈ rest,
        lookupA (syncOne table' p t now workDir backupDir fs').table qt.1 =
          lookupA table qt.1 ∧
        getFile (syncOne table' p t now workDir backupDir fs').fs qt.1 =
          getFile fs qt.1 := by
      intro qt hqt
      have hne : qt.1 ≠ p := by
        intro hh
        exact hpmem (hh ▸ List.mem_map_of_mem Prod.fst hqt)
      have hqbd : leads backupDir qt.1 = false := by
        cases hb : leads backupDir qt.1 with
        | false => rfl
        | true =>
          have hw := hunder qt (List.mem_cons_of_mem _ hqt)
          rcases leads_comparable hw hb with h | h
          · rw [hdisj.1] at h
            cases h
          · rw [hdisj.2] at h
            cases h
      refine ⟨?_, ?_⟩
      · rw [syncOne_table_frame _ hne]
        exact (hagree qt (List.mem_cons_of_mem _ hqt)).1
      · rw [syncOne_fs_frame _ hqbd]
        exact (hagree qt (List.mem_cons_of_mem _ hqt)).2
    have htail := ih (fun qt hqt => hunder qt (List.mem_cons_of_mem _ hqt)) hnodup' hagree'
    simp only [runTick, List.map_cons]
    rw [htail, hhead.1, hhead.2]

/-- C10: on the first tick the table is empty, so every snapshot path takes
the newly-added branch: every dispatched closure invokes `copy_to_dst`, every
path is afterwards in the table with the wall-clock time `now`, and one
closure ran per snapshot entry. -/
theorem first_tick_all_newly_added (snap : List (Path × Nat)) (now : Nat)
    (workDir backupDir : Path) (fs : FS)
    (hnodup : (snap.map Prod.fst).Nodup) :
    (∀ rb ∈ (runTick [] snap now workDir backupDir fs).results, rb.2 = true) ∧
    (∀ pt ∈ snap, lookupA (runTick [] snap now workDir backupDir fs).table pt.1 =
      some now) ∧
    (runTick [] snap now workDir backupDir fs).results.length = snap.length := by
  obtain ⟨h1, h2⟩ := @runTick_fresh snap [] now workDir backupDir fs
    (fun pt _ => rfl) hnodup
  exact ⟨h1, h2, runTick_results_length _ _ _ _ _ _⟩

/-- Witness for C10: two files just seeded by the initialization (unchanged
on disk) are both dispatched for copying on the first tick. -/
theorem first_tick_all_newly_added_w :
    (([(["w", "a"], 5), (["w", "b"], 6)] : List (Path × Nat)).map Prod.fst).Nodup ∧
    ((∀ rb ∈ (runTick [] [(["w", "a"], 5), (["w", "b"], 6)] 100 ["w"] ["b"]
        ⟨[(["w", "a"], "x"), (["w", "b"], "y")], fun _ => false⟩).results, rb.2 = true) ∧
      (∀ pt ∈ ([(["w", "a"], 5), (["w", "b"], 6)] : List (Path × Nat)),
        lookupA (runTick [] [(["w", "a"], 5), (["w", "b"], 6)] 100 ["w"] ["b"]
          ⟨[(["w", "a"], "x"), (["w", "b"], "y")], fun _ => false⟩).table pt.1 =
          some 100) ∧
      (runTick [] [(["w", "a"], 5), (["w", "b"], 6)] 100 ["w"] ["b"]
        ⟨[(["w", "a"], "x"), (["w", "b"], "y")], fun _ => false⟩).results.length =
        ([(["w", "a"], 5), (["w", "b"], 6)] : List (Path × Nat)).length) :=
  ⟨by decide, first_tick_all_newly_added [(["w", "a"], 5), (["w", "b"], 6)] 100 ["w"] ["b"]
    ⟨[(["w", "a"], "x"), (["w", "b"], "y")], fun _ => false⟩ (by decide)⟩

/-- C6: when the snapshot succeeds, the tick returns normally with the
per-file `Result`s merely collected; each file's outcome is exactly what its
closure computes from the initial tick state — so one file's copy failure
leaves every other file's outcome untouched — and the loop proceeds to the
next tick regardless of the collected errors. -/
theorem per_file_failure_isolated (meta : Path → Option Nat) (entries : List WalkEntry)
    (snap : List (Path × Nat)) (table : ModTimeTable) (now : Nat)
    (workDir backupDir : Path) (fs : FS)
    (restTicks : List ((Path → Option Nat) × List WalkEntry × Nat))
    (hdisj : leads workDir backupDir = false ∧ leads backupDir workDir = false)
    (hunder : ∀ pt ∈ snap, leads workDir pt.1 = true)
    (hnodup : (snap.map Prod.fst).Nodup)
    (hsnap : takeSnapshot meta entries = Except.ok snap) :
    copy_files_tick meta entries table now workDir backupDir fs =
      Except.ok (runTick table snap now workDir backupDir fs) ∧
    (runTick table snap now workDir backupDir fs).results =
      snap.map (fun pt => ((syncOne table pt.1 pt.2 now workDir backupDir fs).res,
        (syncOne table pt.1 pt.2 now workDir backupDir fs).copied)) ∧
    copy_files_loop workDir backupDir ((meta, entries, now) :: restTicks) table fs =
      copy_files_loop workDir backupDir restTicks
        (runTick table snap now workDir backupDir fs).table
        (runTick table snap now workDir backupDir fs).fs := by
  refine ⟨?_, ?_, ?_⟩
  · simp [copy_files_tick, hsnap]
  · exact runTick_results_isolated hdisj hunder hnodup (fun pt _ => ⟨rfl, rfl⟩)
  · simp [copy_files_loop, copy_files_tick, hsnap]

/-- Witness for C6: the file `w/gone` vanished between snapshot and copy, so
its copy fails, while `w/ok` is unaffected; the loop continues. -/
theorem per_file_failure_isolated_w :
    (leads ["w"] ["b"] = false ∧ leads ["b"] ["w"] = false) ∧
    (∀ pt ∈ ([(["w", "gone"], 5), (["w", "ok"], 6)] : List (Path × Nat)),
      leads ["w"] pt.1 = true) ∧
    (([(["w", "gone"], 5), (["w", "ok"], 6)] : List (Path × Nat)).map Prod.fst).Nodup ∧
    takeSnapshot
        (fun q => if q = ["w", "gone"] then some 5 else
          if q = ["w", "ok"] then some 6 else none)
        [WalkEntry.ok ["w", "gone"] true, WalkEntry.ok ["w", "ok"] true] =
      Except.ok [(["w", "gone"], 5), (["w", "ok"], 6)] ∧
    (runTick [] [(["w", "gone"], 5), (["w", "ok"], 6)] 100 ["w"] ["b"]
        ⟨[(["w", "ok"], "v")], fun _ => false⟩).results =
      ([(["w", "gone"], 5), (["w", "ok"], 6)] : List (Path × Nat)).map
        (fun pt => ((syncOne [] pt.1 pt.2 100 ["w"] ["b"]
            ⟨[(["w", "ok"], "v")], fun _ => false⟩).res,
          (syncOne [] pt.1 pt.2 100 ["w"] ["b"]
            ⟨[(["w", "ok"], "v")], fun _ => false⟩).copied)) :=
  ⟨⟨rfl, rfl⟩, by decide, by decide, rfl,
    (per_file_failure_isolated
      (fun q => if q = ["w", "gone"] then some 5 else
        if q = ["w", "ok"] then some 6 else none)
      [WalkEntry.ok ["w", "gone"] true, WalkEntry.ok ["w", "ok"] true]
      [(["w", "gone"], 5), (["w", "ok"], 6)] [] 100 ["w"] ["b"]
      ⟨[(["w", "ok"], "v")], fun _ => false⟩ []
      ⟨rfl, rfl⟩ (by decide) (by decide) rfl).2.1⟩

/-! ### Presence preservation (no deletion) -/

theorem syncOne_presence {table : ModTimeTable} {p : Path} {t now : Nat}
    {workDir backupDir : Path} {fs : FS} (q : Path)
    (hq : (getFile fs q).isSome = true) :
    (getFile (syncOne table p t now workDir backupDir fs).fs q).isSome = true := by
  cases h : lookupA table p with
  | some old =>
    rw [syncOne_eq_prior h]
    by_cases hlt : t > old
    · simpa [hlt] using copy_to_dst_presence q hq
    · simpa [hlt] using hq
  | none =>
    rw [syncOne_eq_new h]
    exact copy_to_dst_presence q hq

theorem runTick_presence {snap : List (Path × Nat)} {table : ModTimeTable} {now : Nat}
    {workDir backupDir : Path} {fs : FS} (q : Path)
    (hq : (getFile fs q).isSome = true) :
    (getFile (runTick table snap now workDir backupDir fs).fs q).isSome = true := by
  induction snap generalizing table fs with
  | nil => exact hq
  | cons pt rest ih =>
    obtain ⟨p, t⟩ := pt
    exact ih (syncOne_presence q hq)

theorem copy_files_loop_presence {ticks : List ((Path → Option Nat) × List WalkEntry × Nat)}
    {workDir backupDir : Path} {table : ModTimeTable} {fs : FS}
    {out : ModTimeTable × FS} (q : Path)
    (h : copy_files_loop workDir backupDir ticks table fs = Except.ok out)
    (hq : (getFile fs q).isSome = true) :
    (getFile out.2 q).isSome = true := by
  induction ticks generalizing table fs with
  | nil =>
    simp only [copy_files_loop] at h
    cases h
    exact hq
  | cons tk rest ih =>
    obtain ⟨meta, entries, now⟩ := tk
    simp only [copy_files_loop] at h
    cases ht : copy_files_tick meta entries table now workDir backupDir fs with
    | error e => rw [ht] at h; cases h
    | ok tickOut =>
      rw [ht] at h
      have hfs : (getFile tickOut.fs q).isSome = true := by
        cases hs : takeSnapshot meta entries with
        | error e => simp [copy_files_tick, hs] at ht
        | ok snap =>
          simp only [copy_files_tick, hs] at ht
          cases ht
          exact runTick_presence q hq
      exact ih h hfs

/-- C7: neither the file copier nor any number of sync-loop ticks ever
removes a file: any file present beforehand (in particular any backup
counterpart of a file deleted from the working directory) is still present
after `copy_to_dst`, after a tick, and after any completed run of the loop. -/
theorem no_deletion_ever (p workDir backupDir : Path) (fs : FS) (table : ModTimeTable)
    (snap : List (Path × Nat)) (now : Nat)
    (ticks : List ((Path → Option Nat) × List WalkEntry × Nat))
    (out : ModTimeTable × FS) (q : Path) (c : Content)
    (hq : getFile fs q = some c) :
    (getFile (copy_to_dst p workDir backupDir fs).1 q).isSome = true ∧
    (getFile (runTick table snap now workDir backupDir fs).fs q).isSome = true ∧
    (copy_files_loop workDir backupDir ticks table fs = Except.ok out →
      (getFile out.2 q).isSome = true) := by
  have hq' : (getFile fs q).isSome = true := by rw [hq]; rfl
  exact ⟨copy_to_dst_presence q hq', runTick_presence q hq',
    fun h => copy_files_loop_presence q h hq'⟩

/-- Witness for C7: the backup file `b/keep` survives a tick in which its
working-directory counterpart no longer exists, and a full loop run. -/
theorem no_deletion_ever_w :
    getFile ⟨[(["b", "keep"], "k"), (["w", "f"], "x")], fun _ => false⟩ ["b", "keep"] =
        some "k" ∧
    ((getFile (copy_to_dst ["w", "f"] ["w"] ["b"]
        ⟨[(["b", "keep"], "k"), (["w", "f"], "x")], fun _ => false⟩).1
        ["b", "keep"]).isSome = true ∧
      (getFile (runTick [] [(["w", "f"], 5)] 100 ["w"] ["b"]
        ⟨[(["b", "keep"], "k"), (["w", "f"], "x")], fun _ => false⟩).fs
        ["b", "keep"]).isSome = true ∧
      (copy_files_loop ["w"] ["b"] [] []
          ⟨[(["b", "keep"], "k"), (["w", "f"], "x")], fun _ => false⟩ =
          Except.ok ([], ⟨[(["b", "keep"], "k"), (["w", "f"], "x")], fun _ => false⟩) →
        (getFile (([], ⟨[(["b", "keep"], "k"), (["w", "f"], "x")], fun _ => false⟩) :
            ModTimeTable × FS).2 ["b", "keep"]).isSome = true)) :=
  ⟨rfl, no_deletion_ever ["w", "f"] ["w"] ["b"]
    ⟨[(["b", "keep"], "k"), (["w", "f"], "x")], fun _ => false⟩ [] [(["w", "f"], 5)] 100
    [] ([], ⟨[(["b", "keep"], "k"), (["w", "f"], "x")], fun _ => false⟩) ["b", "keep"]
    "k" rfl⟩

/-! ### Clearing-phase lemmas -/

theorem removeUnder_gone {fs : FS} {d q : Path} (h : leads d q = true) :
    getFile (removeUnder fs d) q = none := by
  refine lookupA_filter_drop _ _ _ (fun v => ?_)
  simp [h]

theorem removeFileAt_gone (fs : FS) (p : Path) :
    getFile (removeFileAt fs p) p = none := by
  refine lookupA_filter_drop _ _ _ (fun v => ?_)
  simp

theorem clear_loop_none_mono {workDir : Path} {entries : List (String × EntryKind)}
    {fs fs' : FS} {q : Path}
    (hok : clear_loop workDir fs entries = Except.ok fs')
    (h : getFile fs q = none) : getFile fs' q = none := by
  induction entries generalizing fs with
  | nil =>
    simp only [clear_loop] at hok
    cases hok
    exact h
  | cons e rest ih =>
    obtain ⟨name, k⟩ := e
    cases k with
    | dir => exact ih hok (lookupA_filter_none _ _ _ h)
    | file => exact ih hok (lookupA_filter_none _ _ _ h)
    | other => cases hok

theorem clear_loop_ok_clears (workDir : Path) (entries : List (String × EntryKind)) :
    ∀ fs : FS, (∀ e ∈ entries, e.2 ≠ EntryKind.other) →
      ∃ fs', clear_loop workDir fs entries = Except.ok fs' ∧
        ∀ e ∈ entries,
          (e.2 = EntryKind.dir →
            ∀ q, leads (workDir ++ [e.1]) q = true → getFile fs' q = none) ∧
          (e.2 = EntryKind.file → getFile fs' (workDir ++ [e.1]) = none) := by
  induction entries with
  | nil =>
    intro fs _
    exact ⟨fs, rfl, fun e he => absurd he (List.not_mem_nil e)⟩
  | cons e0 rest ih =>
    intro fs hno
    obtain ⟨name, k⟩ := e0
    cases k with
    | dir =>
      obtain ⟨fs', hok, hprop⟩ :=
        ih (removeUnder fs (workDir ++ [name]))
          (fun e he => hno e (List.mem_cons_of_mem _ he))
      refine ⟨fs', hok, fun e he => ?_⟩
      rcases List.mem_cons.mp he with h | h
      · subst h
        constructor
        · intro _ q hq
          exact clear_loop_none_mono hok (removeUnder_gone hq)
        · intro hfile
          cases hfile
      · exact hprop e h
    | file =>
      obtain ⟨fs', hok, hprop⟩ :=
        ih (removeFileAt fs (workDir ++ [name]))
          (fun e he => hno e (List.mem_cons_of_mem _ he))
      refine ⟨fs', hok, fun e he => ?_⟩
      rcases List.mem_cons.mp he with h | h
      · subst h
        constructor
        · intro hdir
          cases hdir
        · intro _
          exact clear_loop_none_mono hok (removeFileAt_gone _ _)
      · exact hprop e h
    | other => exact absurd rfl (hno (name, EntryKind.other) (List.mem_cons_self _ _))

theorem clear_loop_err_of_other (workDir : Path) (entries : List (String × EntryKind)) :
    ∀ fs : FS, (∃ e ∈ entries, e.2 = EntryKind.other) →
      clear_loop workDir fs entries =
        Except.error "not really sure what to do here" := by
  induction entries with
  | nil =>
    intro fs hex
    simp at hex
  | cons e0 rest ih =>
    intro fs hex
    obtain ⟨name, k⟩ := e0
    cases k with
    | dir =>
      refine ih (removeUnder fs (workDir ++ [name])) ?_
      rcases hex with ⟨e', he', hk⟩
      rcases List.mem_cons.mp he' with h | h
      · rw [h] at hk
        cases hk
      · exact ⟨e', h, hk⟩
    | file =>
      refine ih (removeFileAt fs (workDir ++ [name])) ?_
      rcases hex with ⟨e', he', hk⟩
      rcases List.mem_cons.mp he' with h | h
      · rw [h] at hk
        cases hk
      · exact ⟨e', h, hk⟩
    | other => rfl

/-- C8: if every direct entry of work_dir is a directory or a regular file,
the clearing loop succeeds and, at its end, every directory entry is gone
recursively and every file entry is gone — and that happens before `main`
reaches the populate phase; whereas if some direct entry is of any other
kind, clearing hits `todo!()`, which is fatal: `main`'s initialization makes
no further progress and no copy happens. -/
theorem clear_phase_semantics (workDir backupDir : Path) (fs : FS)
    (entries : List (String × EntryKind)) :
    ((∀ e ∈ entries, e.2 ≠ EntryKind.other) →
      ∃ fs', clear_loop workDir fs entries = Except.ok fs' ∧
        ∀ e ∈ entries,
          (e.2 = EntryKind.dir →
            ∀ q, leads (workDir ++ [e.1]) q = true → getFile fs' q = none) ∧
          (e.2 = EntryKind.file → getFile fs' (workDir ++ [e.1]) = none)) ∧
    ((∃ e ∈ entries, e.2 = EntryKind.other) →
      clear_loop workDir fs entries =
        Except.error "not really sure what to do here" ∧
      main_init workDir backupDir fs entries =
        Except.error "not really sure what to do here") := by
  refine ⟨clear_loop_ok_clears workDir entries fs, fun hex => ?_⟩
  have herr := clear_loop_err_of_other workDir entries fs hex
  exact ⟨herr, by simp [main_init, herr]⟩

/-- Witness for C8: one directory entry and one file entry are fully removed
by a successful clear; a single entry of unknown kind aborts `main`'s
initialization before any copy. -/
theorem clear_phase_semantics_w :
    (∀ e ∈ ([("d", EntryKind.dir), ("f", EntryKind.file)] : List (String × EntryKind)),
      e.2 ≠ EntryKind.other) ∧
    (∃ fs', clear_loop ["w"]
        ⟨[(["w", "d", "x"], "1"), (["w", "f"], "2"), (["b", "y"], "3")], fun _ => false⟩
        [("d", EntryKind.dir), ("f", EntryKind.file)] = Except.ok fs' ∧
      ∀ e ∈ ([("d", EntryKind.dir), ("f", EntryKind.file)] : List (String × EntryKind)),
        (e.2 = EntryKind.dir →
          ∀ q, leads (["w"] ++ [e.1]) q = true → getFile fs' q = none) ∧
        (e.2 = EntryKind.file → getFile fs' (["w"] ++ [e.1]) = none)) ∧
    (∃ e ∈ ([("s", EntryKind.other)] : List (String × EntryKind)),
      e.2 = EntryKind.other) ∧
    (clear_loop ["w"] ⟨[(["w", "s"], "1")], fun _ => false⟩ [("s", EntryKind.other)] =
        Except.error "not really sure what to do here" ∧
      main_init ["w"] ["b"] ⟨[(["w", "s"], "1")], fun _ => false⟩ [("s", EntryKind.other)] =
        Except.error "not really sure what to do here") :=
  ⟨by decide,
    (clear_phase_semantics ["w"] ["b"]
      ⟨[(["w", "d", "x"], "1"), (["w", "f"], "2"), (["b", "y"], "3")], fun _ => false⟩
      [("d", EntryKind.dir), ("f", EntryKind.file)]).1 (by decide),
    by decide,
    (clear_phase_semantics ["w"] ["b"] ⟨[(["w", "s"], "1")], fun _ => false⟩
      [("s", EntryKind.other)]).2 (by decide)⟩

/-! ### Initialization (populate) lemmas -/

theorem initPopulate_spec (workDir backupDir : Path)
    (hdisj : leads workDir backupDir = false ∧ leads backupDir workDir = false) :
    ∀ (ps : List Path) (fs : FS),
      (∀ p ∈ ps, leads backupDir p = true ∧ p ≠ backupDir ∧
        (getFile fs p).isSome = true) →
      ∃ fs', initPopulate workDir backupDir fs ps = Except.ok fs' ∧
        (∀ q, leads workDir q = false → getFile fs' q = getFile fs q) ∧
        (∀ rel, rel ≠ [] →
          getFile fs' (workDir ++ rel) =
            if (backupDir ++ rel) ∈ ps then getFile fs (backupDir ++ rel)
            else getFile fs (workDir ++ rel)) := by
  intro ps
  induction ps with
  | nil =>
    intro fs _
    refine ⟨fs, rfl, fun q _ => rfl, fun rel _ => ?_⟩
    simp
  | cons p0 ps ih =>
    intro fs hps
    obtain ⟨hb0, hne0, hsome0⟩ := hps p0 (List.mem_cons_self _ _)
    obtain ⟨c, hc⟩ := Option.isSome_iff_exists.mp hsome0
    obtain ⟨rel0, hrel0, hp0eq⟩ := dropRoot_of_leads hb0
    have hrel0ne : rel0 ≠ [] := by
      intro hh
      rw [hh, List.append_nil] at hp0eq
      exact hne0 hp0eq
    have cdspec := @copy_to_dst_spec p0 backupDir workDir rel0 fs c hrel0 hc
    have hstep : initPopulate workDir backupDir fs (p0 :: ps) =
        initPopulate workDir backupDir (copy_to_dst p0 backupDir workDir fs).1 ps := by
      simp only [initPopulate]
      rw [cdspec.1]
    have hdst_ne : ∀ p : Path, leads backupDir p = true → p ≠ workDir ++ rel0 := by
      intro p hp hcontra
      have hwp : leads workDir p = true := by
        rw [hcontra]
        exact leads_append workDir rel0
      rcases leads_comparable hwp hp with h | h
      · rw [hdisj.1] at h
        cases h
      · rw [hdisj.2] at h
        cases h
    have hps' : ∀ p ∈ ps, leads backupDir p = true ∧ p ≠ backupDir ∧
        (getFile (copy_to_dst p0 backupDir workDir fs).1 p).isSome = true := by
      intro p hp
      obtain ⟨hb, hne, hsome⟩ := hps p (List.mem_cons_of_mem _ hp)
      refine ⟨hb, hne, ?_⟩
      rw [cdspec.2.2.1 p (hdst_ne p hb)]
      exact hsome
    obtain ⟨fs', hA, hframe, hchar⟩ := ih (copy_to_dst p0 backupDir workDir fs).1 hps'
    refine ⟨fs', hstep.trans hA, ?_, ?_⟩
    · intro q hq
      rw [hframe q hq]
      refine cdspec.2.2.1 q ?_
      intro hcontra
      rw [hcontra, leads_append] at hq
      cases hq
    · intro rel hrel
      rw [hchar rel hrel]
      by_cases hmem : (backupDir ++ rel) ∈ ps
      · rw [if_pos hmem, if_pos (List.mem_cons_of_mem _ hmem)]
        exact cdspec.2.2.1 _ (hdst_ne _ (leads_append backupDir rel))
      · by_cases heq : backupDir ++ rel = p0
        · have hreleq : rel = rel0 := List.append_cancel_left (heq.trans hp0eq)
          subst hreleq
          rw [if_neg hmem, if_pos (List.mem_cons.mpr (Or.inl heq))]
          rw [cdspec.2.1]
          rw [heq, hc]
        · have hwdne : workDir ++ rel ≠ workDir ++ rel0 := by
            intro hh
            exact heq (by rw [List.append_cancel_left hh, ← hp0eq])
          have hnotmem : (backupDir ++ rel) ∉ p0 :: ps := by
            intro hh
            rcases List.mem_cons.mp hh with h | h
            · exact heq h
            · exact hmem h
          rw [if_neg hmem, if_neg hnotmem]
          exact cdspec.2.2.1 _ hwdne

theorem main_init_sync {workDir backupDir : Path} {fs fs1 : FS}
    {entries : List (String × EntryKind)}
    (hdisj : leads workDir backupDir = false ∧ leads backupDir workDir = false)
    (hclear : clear_loop workDir fs entries = Except.ok fs1)
    (hcleared : ∀ pc ∈ fs1.files, leads workDir pc.1 = false)
    (hbd : getFile fs1 backupDir = none) :
    ∃ fsA, main_init workDir backupDir fs entries = Except.ok fsA ∧
      ∀ rel, rel ≠ [] →
        getFile fsA (workDir ++ rel) = getFile fsA (backupDir ++ rel) := by
  have hmain : main_init workDir backupDir fs entries =
      initPopulate workDir backupDir fs1 (walkFiles fs1 backupDir) := by
    simp [main_init, hclear]
  have hps : ∀ p ∈ walkFiles fs1 backupDir, leads backupDir p = true ∧
      p ≠ backupDir ∧ (getFile fs1 p).isSome = true := by
    intro p hp
    obtain ⟨pc, hpc, hpc1⟩ := List.mem_map.mp hp
    have hpcf := List.mem_filter.mp hpc
    obtain ⟨q0, c0⟩ := pc
    cases hpc1
    refine ⟨hpcf.2, ?_, lookupA_isSome_of_mem hpcf.1⟩
    intro hh
    have hh' : q0 = backupDir := hh
    have hs := lookupA_isSome_of_mem hpcf.1
    rw [hh'] at hs
    rw [show lookupA fs1.files backupDir = getFile fs1 backupDir from rfl, hbd] at hs
    cases hs
  obtain ⟨fsA, hA, hframe, hchar⟩ :=
    initPopulate_spec workDir backupDir hdisj (walkFiles fs1 backupDir) fs1 hps
  refine ⟨fsA, hmain.trans hA, ?_⟩
  intro rel hrel
  have hwd_none : getFile fs1 (workDir ++ rel) = none := by
    cases hg : getFile fs1 (workDir ++ rel) with
    | none => rfl
    | some c =>
      have hmem := mem_keys_of_lookupA hg
      have hlw := hcleared _ hmem
      rw [leads_append] at hlw
      cases hlw
  have hbd_frame : getFile fsA (backupDir ++ rel) = getFile fs1 (backupDir ++ rel) := by
    apply hframe
    cases hl : leads workDir (backupDir ++ rel) with
    | false => rfl
    | true =>
      rcases leads_comparable hl (leads_append backupDir rel) with h | h
      · rw [hdisj.1] at h
        cases h
      · rw [hdisj.2] at h
        cases h
  rw [hchar rel hrel, hbd_frame]
  by_cases hmem : (backupDir ++ rel) ∈ walkFiles fs1 backupDir
  · rw [if_pos hmem]
  · rw [if_neg hmem, hwd_none]
    cases hg : getFile fs1 (backupDir ++ rel) with
    | none => rfl
    | some c =>
      have hmemf := mem_keys_of_lookupA hg
      exact absurd
        (List.mem_map.mpr ⟨(backupDir ++ rel, c),
          List.mem_filter.mpr ⟨hmemf, leads_append backupDir rel⟩, rfl⟩) hmem

/-- C5: running the initialization twice against the same backup directory
from an already-populated working directory leaves the working tree's file
set and contents exactly equal to the backup tree's: for every nonempty
relative path the two trees agree pointwise (so neither is a proper
superset or subset of the other).  The direct-entry lists `e1`, `e2` and the
cleared-state hypotheses say that each clear phase was handed the actual
direct entries of work_dir, which the filesystem guarantees. -/
theorem init_idempotent (workDir backupDir : Path) (fs fsA fs2 : FS)
    (e1 e2 : List (String × EntryKind))
    (hdisj : leads workDir backupDir = false ∧ leads backupDir workDir = false)
    (_hrun1 : main_init workDir backupDir fs e1 = Except.ok fsA)
    (hclear2 : clear_loop workDir fsA e2 = Except.ok fs2)
    (hcleared2 : ∀ pc ∈ fs2.files, leads workDir pc.1 = false)
    (hbd2 : getFile fs2 backupDir = none) :
    ∃ fsB, main_init workDir backupDir fsA e2 = Except.ok fsB ∧
      ∀ rel, rel ≠ [] →
        getFile fsB (workDir ++ rel) = getFile fsB (backupDir ++ rel) :=
  main_init_sync hdisj hclear2 hcleared2 hbd2

/-- Witness for C5: `work_dir` starts populated with a stale file `w/old`;
after one initialization run it holds exactly `w/y` (mirroring `b/y`), and a
second run succeeds and leaves the two trees pointwise equal. -/
theorem init_idempotent_w :
    (leads ["w"] ["b"] = false ∧ leads ["b"] ["w"] = false) ∧
    main_init ["w"] ["b"]
        ⟨[(["w", "old"], "junk"), (["b", "y"], "c")], fun _ => false⟩
        [("old", EntryKind.file)] =
      Except.ok ⟨[(["b", "y"], "c"), (["w", "y"], "c")],
        fun q => leads q ["w"] || false⟩ ∧
    clear_loop ["w"]
        ⟨[(["b", "y"], "c"), (["w", "y"], "c")], fun q => leads q ["w"] || false⟩
        [("y", EntryKind.file)] =
      Except.ok ⟨[(["b", "y"], "c")], fun q => leads q ["w"] || false⟩ ∧
    (∀ pc ∈ (FS.mk [(["b", "y"], "c")] (fun q => leads q ["w"] || false)).files,
      leads ["w"] pc.1 = false) ∧
    getFile ⟨[(["b", "y"], "c")], fun q => leads q ["w"] || false⟩ ["b"] = none ∧
    (∃ fsB, main_init ["w"] ["b"]
        ⟨[(["b", "y"], "c"), (["w", "y"], "c")], fun q => leads q ["w"] || false⟩
        [("y", EntryKind.file)] = Except.ok fsB ∧
      ∀ rel, rel ≠ [] → getFile fsB (["w"] ++ rel) = getFile fsB (["b"] ++ rel)) :=
  ⟨⟨rfl, rfl⟩, rfl, rfl, by decide, rfl,
    init_idempotent ["w"] ["b"]
      ⟨[(["w", "old"], "junk"), (["b", "y"], "c")], fun _ => false⟩
      ⟨[(["b", "y"], "c"), (["w", "y"], "c")], fun q => leads q ["w"] || false⟩
      ⟨[(["b", "y"], "c")], fun q => leads q ["w"] || false⟩
      [("old", EntryKind.file)] [("y", EntryKind.file)]
      ⟨rfl, rfl⟩ rfl rfl (by decide) rfl⟩

end EvilMount
